import Mathlib

/-!
Verification of the OpenClaudia agent-middleware core: a shallow embedding in
Lean 4 of the context compactor, hook engine, context injector, MCP tool
router and archival memory store, together with theorems settling the
specification's claims about them.

Modelling conventions:
* Rust `usize` arithmetic is modelled by `Nat` (the relevant operations are
  `saturating_sub`, which is `Nat.sub`, and truncating division `/`).
* The single `f32` computation inside the token estimator
  (`(word_count as f32) * 1.3` truncated with `as usize`) is modelled exactly:
  `1.3f32` is the dyadic rational `10905190 / 2^23` and IEEE-754
  round-to-nearest-even multiplication is implemented on `Nat`
  (`rneDiv`, `toF32`, `wordEstimateF32`).
* Subprocess execution, regex compilation and the SQLite connection are I/O;
  they are abstracted as oracle parameters (`exec`, `regex`) or as explicit
  in-memory state (`MemoryDb`), and every theorem quantifies over the oracles.
-/

namespace OpenClaudia

/-! ## Data model (spec section 3; the `proxy` module is outside `src/`, its
surface is modelled from the spec and from its uses in `compaction.rs`,
`context.rs` and their tests). Tool calls and tool definitions are consumed by
the core only through their JSON serialisation (`c.to_string()`), so they are
modelled as the serialised strings. -/

structure ContentPart where
  content_type : String
  text : Option String := none
  image_url : Option String := none
deriving DecidableEq, Repr

inductive MessageContent where
  | Text : String → MessageContent
  | Parts : List ContentPart → MessageContent
deriving DecidableEq, Repr

structure ChatMessage where
  role : String
  content : MessageContent
  name : Option String := none
  tool_calls : Option (List String) := none
  tool_call_id : Option String := none
deriving DecidableEq, Repr

structure ChatCompletionRequest where
  model : String := ""
  messages : List ChatMessage
  tools : Option (List String) := none
deriving DecidableEq, Repr

/-! ## Token estimation (`compaction.rs`, `estimate_tokens` and friends). -/

/-- Rust `char::is_whitespace`: the Unicode `White_Space` property
(25 code points), used by `str::split_whitespace`. -/
def rustIsWhitespace (c : Char) : Bool :=
  c = '\u0009' || c = '\u000A' || c = '\u000B' || c = '\u000C' || c = '\u000D' ||
  c = ' ' || c = '\u0085' || c = '\u00A0' || c = '\u1680' ||
  ('\u2000' ≤ c && c ≤ '\u200A') ||
  c = '\u2028' || c = '\u2029' || c = '\u202F' || c = '\u205F' || c = '\u3000'

/-- Rust `text.chars().count()`: the number of Unicode scalar values. -/
def charCount (s : String) : Nat := s.length

/-- Word counter over a character list: counts maximal runs of
non-whitespace characters. The Boolean flag records whether the previous
character was inside a word. -/
def countWordsAux : List Char → Bool → Nat
  | [], _ => 0
  | c :: rest, inWord =>
    if rustIsWhitespace c then countWordsAux rest false
    else (if inWord then 0 else 1) + countWordsAux rest true

/-- Rust `text.split_whitespace().count()`. -/
def wordCount (s : String) : Nat := countWordsAux s.toList false

/-- Integer division rounding half to even (the IEEE-754 mantissa rounding
step): `rneDiv n d` is the nearest integer to `n / d`, ties to even. -/
def rneDiv (n d : Nat) : Nat :=
  let q := n / d
  let r := n % d
  if 2 * r < d then q
  else if 2 * r > d then q + 1
  else if q % 2 = 0 then q else q + 1

/-- Fuelled floor of the base-2 logarithm (structurally recursive so that
concrete instances evaluate inside the kernel). -/
def log2Fuel : Nat → Nat → Nat
  | 0, _ => 0
  | fuel + 1, n => if 2 ≤ n then log2Fuel fuel (n / 2) + 1 else 0

/-- Floor of the base-2 logarithm; agrees with `Nat.log2`
(`natLog2_eq_log2`). -/
def natLog2 (n : Nat) : Nat := log2Fuel n n

/-- The value of `(w : u64) as f32`: naturals below `2^24` are exact, larger
ones are rounded to 24 significant bits (round to nearest, ties to even). -/
def toF32 (w : Nat) : Nat :=
  if w < 2 ^ 24 then w
  else
    let L := natLog2 w
    rneDiv w (2 ^ (L - 23)) * 2 ^ (L - 23)

/-- The value of `(word_count as f32 * 1.3) as usize` in the source.
`1.3f32` is exactly `10905190 / 2^23`; the product is rounded to a 24-bit
mantissa (ties to even) and then truncated toward zero. -/
def wordEstimateF32 (w : Nat) : Nat :=
  if w = 0 then 0
  else
    let n := toF32 w * 10905190
    let L := natLog2 n
    let m := rneDiv n (2 ^ (L - 23))
    if 46 ≤ L then m * 2 ^ (L - 46) else m / 2 ^ (46 - L)

/-- `estimate_tokens` from `compaction.rs`: weighted average of a
character-based and a word-based estimate. -/
def estimate_tokens (text : String) : Nat :=
  let char_estimate := charCount text / 4
  let word_estimate := wordEstimateF32 (wordCount text)
  (char_estimate * 2 + word_estimate) / 3

/-- `estimate_message_tokens` from `compaction.rs`. -/
def estimate_message_tokens (message : ChatMessage) : Nat :=
  let content_tokens :=
    match message.content with
    | .Text text => estimate_tokens text
    | .Parts parts =>
      (parts.map fun p =>
        (p.text.map estimate_tokens).getD 0 +
          (if p.image_url.isSome then 1000 else 0)).sum
  let overhead := 4 + (message.name.map estimate_tokens).getD 0
  let tool_tokens :=
    (message.tool_calls.map fun calls => (calls.map estimate_tokens).sum).getD 0
  content_tokens + overhead + tool_tokens

/-- `estimate_request_tokens` from `compaction.rs`. -/
def estimate_request_tokens (request : ChatCompletionRequest) : Nat :=
  let message_tokens := (request.messages.map estimate_message_tokens).sum
  let tool_tokens :=
    (request.tools.map fun tools => (tools.map estimate_tokens).sum).getD 0
  message_tokens + tool_tokens + 100

/-- The formula the specification states for `estimate_tokens`, with an exact
(real-arithmetic) `floor(word_count * 1.3) = 13 * word_count / 10`. -/
def estimate_tokens_spec (text : String) : Nat :=
  (2 * (charCount text / 4) + 13 * wordCount text / 10) / 3

/-! ## Hook engine (`hooks.rs`). Subprocess execution of command hooks
(spawn, stdin write, timeout, stdout parse) is I/O and is abstracted as an
oracle `exec : Hook → Except HookError (HookOutput × Int)` giving, for each
command hook, the parsed output and exit code, or the failure. Regex
compilation is abstracted as `regex : String → Except String (String → Bool)`
(the compiled matcher, or the compile-error message). -/

inductive HookEvent where
  | SessionStart | SessionEnd | PreToolUse | PostToolUse | PostToolUseFailure
  | UserPromptSubmit | Stop | SubagentStart | SubagentStop | PreCompact
  | PermissionRequest | Notification
deriving DecidableEq, Repr

/-- `HookEvent::config_key` from `hooks.rs`. -/
def HookEvent.config_key : HookEvent → String
  | .SessionStart => "session_start"
  | .SessionEnd => "session_end"
  | .PreToolUse => "pre_tool_use"
  | .PostToolUse => "post_tool_use"
  | .PostToolUseFailure => "post_tool_use_failure"
  | .UserPromptSubmit => "user_prompt_submit"
  | .Stop => "stop"
  | .SubagentStart => "subagent_start"
  | .SubagentStop => "subagent_stop"
  | .PreCompact => "pre_compact"
  | .PermissionRequest => "permission_request"
  | .Notification => "notification"

/-- `HookInput` from `hooks.rs`. `cwd` comes from the process environment and
is irrelevant to dispatch; the open extension bag `extra` only ever receives
the numeric extras added by the compactor, so it is modelled as an association
list of naturals. -/
structure HookInput where
  event : HookEvent
  cwd : String := ""
  session_id : Option String := none
  tool_name : Option String := none
  tool_input : Option String := none
  prompt : Option String := none
  extra : List (String × Nat) := []
deriving DecidableEq, Repr

/-- `HookInput::new`. -/
def HookInput.new (event : HookEvent) : HookInput := { event }

/-- `HookInput::with_session_id`. -/
def HookInput.with_session_id (h : HookInput) (id : String) : HookInput :=
  { h with session_id := some id }

/-- `HookInput::with_extra`. -/
def HookInput.with_extra (h : HookInput) (key : String) (value : Nat) : HookInput :=
  { h with extra := h.extra ++ [(key, value)] }

/-- A `Hook` from `config.rs` (not under `src/`; modelled from the spec's
"a Hook is either a Command Hook (shell command string + timeout in seconds)
or a Prompt Hook (literal text + timeout)" and its uses in `hooks.rs`). -/
inductive Hook where
  | Command : String → Nat → Hook
  | Prompt : String → Nat → Hook
deriving DecidableEq, Repr

/-- A `HookEntry` from `config.rs` (not under `src/`; modelled from the spec's
"optional matcher (regex string), ordered list of Hooks"). -/
structure HookEntry where
  matcher : Option String := none
  hooks : List Hook := []
deriving DecidableEq, Repr

/-- Modelled from the spec: `HooksConfig` lives in `config.rs`, which is not
under `src/`. The spec says "a config maps each of the 12 event kinds to a
list of Entries", so the model carries one entry list per event kind;
`hooks.rs` itself reads only six of them. -/
structure HooksConfig where
  session_start : List HookEntry := []
  session_end : List HookEntry := []
  pre_tool_use : List HookEntry := []
  post_tool_use : List HookEntry := []
  post_tool_use_failure : List HookEntry := []
  user_prompt_submit : List HookEntry := []
  stop : List HookEntry := []
  subagent_start : List HookEntry := []
  subagent_stop : List HookEntry := []
  pre_compact : List HookEntry := []
  permission_request : List HookEntry := []
  notification : List HookEntry := []
deriving DecidableEq, Repr

/-- `HookOutput` from `hooks.rs`; the open extension bag is modelled as a
string association list. -/
structure HookOutput where
  decision : Option String := none
  reason : Option String := none
  system_message : Option String := none
  prompt : Option String := none
  extra : List (String × String) := []
deriving DecidableEq, Repr

inductive HookError where
  | Timeout : Nat → HookError
  | CommandFailed : String → HookError
  | ParseError : String → HookError
  | Blocked : String → HookError
  | InvalidMatcher : String → HookError
deriving DecidableEq, Repr

structure HookResult where
  allowed : Bool
  outputs : List HookOutput
  errors : List HookError
deriving DecidableEq, Repr

/-- `HookResult::allowed()` — the all-clear result. -/
def HookResult.allowedDefault : HookResult := ⟨true, [], []⟩

/-- `HookResult::system_messages`. -/
def HookResult.system_messages (r : HookResult) : List String :=
  r.outputs.filterMap (·.system_message)

/-- `HookEngine` holds the config by value. -/
structure HookEngine where
  config : HooksConfig
deriving DecidableEq, Repr

/-- `HookEngine::get_entries_for_event` from `hooks.rs`: only six of the
twelve events are read from the config; the others get the empty slice
(source comment: "Events not yet in config (return empty)"). -/
def HookEngine.get_entries_for_event (engine : HookEngine) : HookEvent → List HookEntry
  | .SessionStart => engine.config.session_start
  | .SessionEnd => engine.config.session_end
  | .PreToolUse => engine.config.pre_tool_use
  | .PostToolUse => engine.config.post_tool_use
  | .UserPromptSubmit => engine.config.user_prompt_submit
  | .Stop => engine.config.stop
  | .PostToolUseFailure => []
  | .SubagentStart => []
  | .SubagentStop => []
  | .PreCompact => []
  | .PermissionRequest => []
  | .Notification => []

/-- `HookEngine::get_matcher_context`. -/
def HookEngine.get_matcher_context (input : HookInput) : String :=
  match input.tool_name with
  | some tool_name => tool_name
  | none =>
    match input.prompt with
    | some prompt => prompt
    | none => input.event.config_key

/-- `HookEngine::validate_and_match`: empty patterns and compile failures are
`InvalidMatcher` errors. -/
def HookEngine.validate_and_match (regex : String → Except String (String → Bool))
    (pattern context : String) : Except HookError Bool :=
  if pattern = "" then .error (.InvalidMatcher "Empty pattern")
  else
    match regex pattern with
    | .ok re => .ok (re context)
    | .error e => .error (.InvalidMatcher e)

/-- `HookEngine::matches_entry`: no matcher always matches; a matcher error is
logged and treated as no match. -/
def HookEngine.matches_entry (regex : String → Except String (String → Bool))
    (entry : HookEntry) (context : String) : Bool :=
  match entry.matcher with
  | none => true
  | some pattern =>
    match HookEngine.validate_and_match regex pattern context with
    | .ok matched => matched
    | .error _ => false

/-- `HookEngine::run_hook`: a prompt hook synthesises `{systemMessage}` with
exit code 0; a command hook is executed through the `exec` oracle. -/
def HookEngine.run_hook (exec : Hook → Except HookError (HookOutput × Int)) :
    Hook → Except HookError (HookOutput × Int)
  | .Command c t => exec (.Command c t)
  | .Prompt p _ => .ok ({ system_message := some p }, 0)

/-- The flattened list of hooks of the matching entries (step 4 of the
dispatch algorithm); empty when the event has no entries or none match. -/
def HookEngine.hooks_to_run (regex : String → Except String (String → Bool))
    (engine : HookEngine) (event : HookEvent) (input : HookInput) : List Hook :=
  let entries := engine.get_entries_for_event event
  if entries.isEmpty then []
  else
    let context := HookEngine.get_matcher_context input
    let matching := entries.filter (fun e => HookEngine.matches_entry regex e context)
    (matching.map HookEntry.hooks).flatten

/-- One iteration of the result-merging loop of `HookEngine::run`: exit code
2 or decision `deny`/`block` clears `allowed`; the output or error is
appended. -/
def mergeStep (acc : HookResult) (r : Except HookError (HookOutput × Int)) : HookResult :=
  match r with
  | .ok (output, exit_code) =>
    let acc := if exit_code = 2 then { acc with allowed := false } else acc
    let acc :=
      match output.decision with
      | some d => if d = "deny" ∨ d = "block" then { acc with allowed := false } else acc
      | none => acc
    { acc with outputs := acc.outputs ++ [output] }
  | .error e => { acc with errors := acc.errors ++ [e] }

/-- The result-merging loop of `HookEngine::run`, starting from the all-clear
result. -/
def mergeResults (results : List (Except HookError (HookOutput × Int))) : HookResult :=
  results.foldl mergeStep HookResult.allowedDefault

/-- Whether one hook result forces `allowed = false` in the merge: a
successfully completed hook whose exit code is 2 or whose decision is
`deny` or `block`. -/
def isBlockingRes : Except HookError (HookOutput × Int) → Bool
  | .ok (output, exit_code) =>
    decide (exit_code = 2) ||
      (match output.decision with
       | some d => decide (d = "deny") || decide (d = "block")
       | none => false)
  | .error _ => false

/-- The output of a successfully completed hook, if any. -/
def okPart : Except HookError (HookOutput × Int) → Option HookOutput
  | .ok (output, _) => some output
  | .error _ => none

/-- The error of a failed hook, if any. -/
def errPart : Except HookError (HookOutput × Int) → Option HookError
  | .ok _ => none
  | .error e => some e

/-- `HookEngine::run`: `futures::future::join_all` returns results in
submission order, so the merge processes `hooks_to_run` in list order. -/
def HookEngine.run (regex : String → Except String (String → Bool))
    (exec : Hook → Except HookError (HookOutput × Int))
    (engine : HookEngine) (event : HookEvent) (input : HookInput) : HookResult :=
  let entries := engine.get_entries_for_event event
  if entries.isEmpty then HookResult.allowedDefault
  else
    let context := HookEngine.get_matcher_context input
    let matching := entries.filter (fun e => HookEngine.matches_entry regex e context)
    if matching.isEmpty then HookResult.allowedDefault
    else
      let hooks := (matching.map HookEntry.hooks).flatten
      mergeResults (hooks.map (HookEngine.run_hook exec))

/-! ## Context compactor (`compaction.rs`). -/

/-- `RESPONSE_RESERVE` from `compaction.rs`. -/
def RESPONSE_RESERVE : Nat := 4096

/-- `CompactionConfig` from `compaction.rs`. The source stores
`threshold : f32` and `analyze` computes
`(max_context_tokens as f32 * threshold) as usize`; that f32 product is
floating point, so the model carries the already-truncated product as
`threshold_tokens` (every run of the source corresponds to one value of this
field, and the claims under verification do not depend on its arithmetic). -/
structure CompactionConfig where
  max_context_tokens : Nat
  threshold_tokens : Nat
  preserve_recent : Nat
  preserve_system : Bool
  preserve_tool_calls : Bool
  summary_prompt : Option String := none
deriving DecidableEq, Repr

/-- `CompactionAnalysis` from `compaction.rs`. -/
structure CompactionAnalysis where
  current_tokens : Nat
  max_tokens : Nat
  needs_compaction : Bool
  tokens_to_free : Nat
  messages_to_summarize : List Nat
  messages_to_preserve : List Nat
deriving DecidableEq, Repr

/-- The preservation predicate inside `categorize_messages`: system messages
(if configured), the last `preserve_recent` indices (saturating subtraction),
and tool-related messages (if configured). -/
def shouldPreserve (config : CompactionConfig) (msg_count i : Nat) (msg : ChatMessage) : Bool :=
  (config.preserve_system && msg.role == "system")
  || decide (msg_count - config.preserve_recent ≤ i)
  || (config.preserve_tool_calls &&
      (msg.role == "tool" || msg.tool_calls.isSome || msg.tool_call_id.isSome))

/-- `ContextCompactor::categorize_messages`: one pass over the enumerated
messages, appending each index to `preserve` or `summarize`; equivalently, the
two sublists of `0..n-1` filtered by the preservation predicate. -/
def categorize_messages (config : CompactionConfig) (messages : List ChatMessage) :
    List Nat × List Nat :=
  let msg_count := messages.length
  let pres : Nat → Bool := fun i =>
    match messages.get? i with
    | some msg => shouldPreserve config msg_count i msg
    | none => false
  ((List.range msg_count).filter pres,
   (List.range msg_count).filter (fun i => !(pres i)))

/-- `ContextCompactor::analyze`. -/
def analyze (config : CompactionConfig) (request : ChatCompletionRequest) :
    CompactionAnalysis :=
  let current_tokens := estimate_request_tokens request
  let threshold_tokens := config.threshold_tokens
  let effective_threshold := threshold_tokens - RESPONSE_RESERVE
  let needs_compaction := decide (current_tokens > effective_threshold)
  let target_tokens := threshold_tokens / 2
  let tokens_to_free := if needs_compaction then current_tokens - target_tokens else 0
  let (preserve, summarize) := categorize_messages config request.messages
  { current_tokens
    max_tokens := config.max_context_tokens
    needs_compaction
    tokens_to_free
    messages_to_summarize := summarize
    messages_to_preserve := preserve }

/-- `capitalize` from `compaction.rs` (the roles fed to it are ASCII, where
`char::to_uppercase` agrees with `Char.toUpper`). -/
def capitalize (s : String) : String :=
  match s.toList with
  | [] => ""
  | c :: rest => String.mk (c.toUpper :: rest)

/-- Rust `str::trim_end`: drop trailing Unicode whitespace. -/
def rustTrimEnd (s : String) : String :=
  String.mk ((s.toList.reverse.dropWhile rustIsWhitespace).reverse)

/-- `truncate_for_summary` from `compaction.rs`: the length test is on the
UTF-8 byte length (`str::len`), the truncation on characters. -/
def truncate_for_summary (text : String) (max_chars : Nat) : String :=
  if text.utf8ByteSize ≤ max_chars then text
  else rustTrimEnd (String.mk (text.toList.take max_chars)) ++ "..."

/-- One step of the turn-grouping loop in `generate_summary`; the state is
(summary so far, current role, pending turn contents). -/
def summaryStep (state : String × String × List String) (msg : ChatMessage) :
    String × String × List String :=
  let (summary, current_role, turn_content) := state
  let (summary, turn_content) :=
    if msg.role ≠ current_role ∧ turn_content ≠ [] then
      (summary ++ "**" ++ capitalize current_role ++ "**: " ++
        String.intercalate " " turn_content ++ "\n\n", [])
    else (summary, turn_content)
  let current_role := msg.role
  let content :=
    match msg.content with
    | .Text t => truncate_for_summary t 500
    | .Parts parts =>
      String.intercalate " "
        ((parts.filterMap (·.text)).map (truncate_for_summary · 200))
  let turn_content := if content ≠ "" then turn_content ++ [content] else turn_content
  let turn_content :=
    if msg.tool_calls.isSome then turn_content ++ ["[Used tools]"] else turn_content
  let turn_content :=
    if msg.tool_call_id.isSome then turn_content ++ ["[Tool result]"] else turn_content
  (summary, current_role, turn_content)

/-- `ContextCompactor::generate_summary`. -/
def generate_summary (messages : List ChatMessage) : String :=
  let init : String × String × List String :=
    ("<context-summary>\nThe following is a summary of the earlier conversation:\n\n",
     "", [])
  let (summary, current_role, turn_content) := messages.foldl summaryStep init
  let summary :=
    if turn_content ≠ [] then
      summary ++ "**" ++ capitalize current_role ++ "**: " ++
        String.intercalate " " turn_content ++ "\n"
    else summary
  summary ++ "</context-summary>"

/-- `CompactionResult` from `compaction.rs`. -/
structure CompactionResult where
  compacted : Bool
  original_tokens : Nat
  new_tokens : Nat
  messages_summarized : Nat
  summary : Option String
deriving DecidableEq, Repr

/-- `CompactionError` from `compaction.rs`. -/
inductive CompactionError where
  | HookBlocked : String → CompactionError
  | Failed : String → CompactionError
deriving DecidableEq, Repr

/-- The system message carrying the synopsis, pushed by `compact`. -/
def summaryMessage (summary : String) : ChatMessage :=
  { role := "system", content := .Text summary }

/-- The candidate message list `compact` builds: preserved system messages
first (original order), then the synopsis message, then preserved non-system
messages (original order). -/
def compactedMessages (analysis : CompactionAnalysis)
    (messages : List ChatMessage) (summary : String) : List ChatMessage :=
  let preserved := analysis.messages_to_preserve.filterMap (messages.get? ·)
  preserved.filter (fun m => m.role == "system")
    ++ [summaryMessage summary]
    ++ preserved.filter (fun m => !(m.role == "system"))

instance {ε α : Type} [DecidableEq ε] [DecidableEq α] : DecidableEq (Except ε α) :=
  fun a b =>
    match a, b with
    | .ok x, .ok y =>
      if h : x = y then isTrue (by rw [h]) else isFalse (fun e => h (Except.ok.inj e))
    | .error x, .error y =>
      if h : x = y then isTrue (by rw [h]) else isFalse (fun e => h (Except.error.inj e))
    | .ok _, .error _ => isFalse (fun e => Except.noConfusion e)
    | .error _, .ok _ => isFalse (fun e => Except.noConfusion e)

/-- The PreCompact hook gate inside `compact`: build the hook input (token
extras and optional session id), run the engine, and return the block reason
when the result is not allowed. -/
def precompactBlockReason (regex : String → Except String (String → Bool))
    (exec : Hook → Except HookError (HookOutput × Int)) (engine : HookEngine)
    (session_id : Option String) (current_tokens max_tokens : Nat) : Option String :=
  let hook_input :=
    ((HookInput.new .PreCompact).with_extra "current_tokens"
        current_tokens).with_extra "max_tokens" max_tokens
  let hook_input :=
    match session_id with
    | some sid => hook_input.with_session_id sid
    | none => hook_input
  let hook_result := engine.run regex exec .PreCompact hook_input
  if !hook_result.allowed then
    some ((hook_result.outputs.head?.bind (·.reason)).getD "Hook blocked compaction")
  else none

/-- The hook gate of `compact` for an optional engine (`None` skips hooks). -/
def compactBlocked (regex : String → Except String (String → Bool))
    (exec : Hook → Except HookError (HookOutput × Int))
    (hook_engine : Option HookEngine) (session_id : Option String)
    (current_tokens max_tokens : Nat) : Option String :=
  match hook_engine with
  | none => none
  | some engine =>
    precompactBlockReason regex exec engine session_id current_tokens max_tokens

/-- `ContextCompactor::compact`. The `&mut request` parameter is modelled by
returning the post-call request alongside the `Result`; note that the source
assigns `request.messages = new_messages` before the token re-estimate, so the
`Failed` branch returns the mutated request. -/
def compact (regex : String → Except String (String → Bool))
    (exec : Hook → Except HookError (HookOutput × Int))
    (config : CompactionConfig) (request : ChatCompletionRequest)
    (hook_engine : Option HookEngine) (session_id : Option String) :
    Except CompactionError CompactionResult × ChatCompletionRequest :=
  let analysis := analyze config request
  if !analysis.needs_compaction then
    (.ok ⟨false, analysis.current_tokens, analysis.current_tokens, 0, none⟩, request)
  else
    match compactBlocked regex exec hook_engine session_id
        analysis.current_tokens analysis.max_tokens with
    | some reason => (.error (.HookBlocked reason), request)
    | none =>
      let messages_to_summarize :=
        analysis.messages_to_summarize.filterMap (request.messages.get? ·)
      if messages_to_summarize.isEmpty then
        (.ok ⟨false, analysis.current_tokens, analysis.current_tokens, 0, none⟩, request)
      else
        let summary := generate_summary messages_to_summarize
        let new_messages := compactedMessages analysis request.messages summary
        let request' := { request with messages := new_messages }
        let new_tokens := estimate_request_tokens request'
        if analysis.current_tokens ≤ new_tokens then
          (.error (.Failed "Compaction did not reduce token count"), request')
        else
          (.ok ⟨true, analysis.current_tokens, new_tokens,
                messages_to_summarize.length, some summary⟩, request')

/-! ## Context injector (`context.rs`). -/

/-- `wrap_system_reminder` from `context.rs`. -/
def wrap_system_reminder (content : String) : String :=
  "<system-reminder>\n" ++ content ++ "\n</system-reminder>"

/-- Replace the element at one index, leaving everything else unchanged
(the in-place update `request.messages[i] = ...`). -/
def modifyNthL {α : Type} : List α → Nat → (α → α) → List α
  | [], _, _ => []
  | a :: l, 0, f => f a :: l
  | a :: l, n + 1, f => a :: modifyNthL l n f

/-- Rust `iter().rposition(p)`: the greatest index satisfying the predicate
(later occurrences win over earlier ones). -/
def rposition {α : Type} (p : α → Bool) : List α → Option Nat
  | [] => none
  | a :: l =>
    match rposition p l with
    | some j => some (j + 1)
    | none => if p a then some 0 else none

/-- `ContextInjector::append_to_message`: text content gets the reminder
appended after a blank line; multi-part content gets a new text part. -/
def append_to_message (message : ChatMessage) (content : String) : ChatMessage :=
  match message.content with
  | .Text t => { message with content := .Text (t ++ "\n\n" ++ content) }
  | .Parts parts =>
    { message with content := .Parts (parts ++ [{ content_type := "text", text := some content }]) }

/-- `ContextInjector::inject`. -/
def inject (request : ChatCompletionRequest) (hook_result : HookResult) :
    ChatCompletionRequest :=
  let system_messages := hook_result.system_messages
  if system_messages.isEmpty then request
  else
    let combined := String.intercalate "\n\n" system_messages
    let reminder := wrap_system_reminder combined
    match rposition (fun m => m.role == "user") request.messages with
    | some last_user_idx =>
      { request with
        messages := modifyNthL request.messages last_user_idx (append_to_message · reminder) }
    | none =>
      { request with
        messages := request.messages ++ [{ role := "system", content := .Text reminder }] }

/-! ## MCP tool routing (`mcp.rs`). The transports are I/O; a successful
dispatch is modelled as the `(server name, tool name)` pair on which
`tools/call` would be issued, so the error cases demonstrably issue no
request. -/

inductive McpError where
  | Transport : String → McpError
  | Protocol : String → McpError
  | ToolNotFound : String → McpError
  | NotConnected : String → McpError
  | Timeout : McpError
  | Io : String → McpError
deriving DecidableEq, Repr

/-- `McpTool` from `mcp.rs` (`input_schema` carried as serialised JSON). -/
structure McpTool where
  name : String
  description : Option String := none
  input_schema : Option String := none
deriving DecidableEq, Repr

/-- An `McpServer` record: local name plus the cached tool list. -/
structure McpServer where
  name : String
  tools : List McpTool := []
deriving DecidableEq, Repr

/-- `McpServer::call_tool`: reject with `ToolNotFound` unless the name is in
the cached tool list; otherwise issue `tools/call` (modelled as the returned
pair). -/
def McpServer.call_tool (server : McpServer) (name : String) :
    Except McpError (String × String) :=
  if !(server.tools.any fun t => t.name == name) then
    .error (.ToolNotFound name)
  else
    .ok (server.name, name)

/-- `McpManager` keys server records by local name (`HashMap` modelled as an
association list with distinct keys maintained by `insert`). -/
structure McpManager where
  servers : List (String × McpServer) := []
deriving DecidableEq, Repr

/-- Rust `full_name.splitn(2, '_')`: split at the first underscore, keeping
the rest (further underscores included) as the second part; `none` when the
string has no underscore. -/
def splitFirstUnderscore : List Char → Option (List Char × List Char)
  | [] => none
  | c :: rest =>
    if c = '_' then some ([], rest)
    else (splitFirstUnderscore rest).map fun (a, b) => (c :: a, b)

/-- `McpManager::call_tool`: split the full name at the first `_`
(`splitn(2, '_')`); no `_` is a `ToolNotFound`, an unknown server a
`NotConnected`, then dispatch to the server. -/
def McpManager.call_tool (manager : McpManager) (full_name : String) :
    Except McpError (String × String) :=
  match splitFirstUnderscore full_name.toList with
  | none => .error (.ToolNotFound ("Invalid tool name format: " ++ full_name ++
      ". Expected server_toolname"))
  | some (server_chars, tool_chars) =>
    let server_name := String.mk server_chars
    let tool_name := String.mk tool_chars
    match manager.servers.lookup server_name with
    | none => .error (.NotConnected server_name)
    | some server => server.call_tool tool_name

/-! ## Archival memory (`memory.rs`). The SQLite table `archival_memory` is
modelled as an in-memory list of rows `(id, content, tags-string)` plus the
AUTOINCREMENT counter; `datetime('now')` timestamps are irrelevant to the
claims and modelled as `""`. -/

structure ArchivalMemory where
  id : Nat
  content : String
  tags : List String
  created_at : String := ""
  updated_at : String := ""
deriving DecidableEq, Repr

structure MemoryDb where
  entries : List (Nat × String × String) := []
  next_id : Nat := 1
deriving DecidableEq, Repr

/-- Rust `tags.join(",")` at the character level. -/
def joinComma : List (List Char) → List Char
  | [] => []
  | [t] => t
  | t :: rest => t ++ ',' :: joinComma rest

/-- Rust `s.split(',')` at the character level: splitting the empty string
yields one empty segment. -/
def splitComma : List Char → List (List Char)
  | [] => [[]]
  | c :: rest =>
    let acc := splitComma rest
    if c = ',' then [] :: acc
    else
      match acc with
      | cur :: tail => (c :: cur) :: tail
      | [] => [[c]]

/-- The tag decoding in `memory_get` / `memory_search` / `memory_list`:
`split(',')` then drop empty segments. -/
def parseTags (tags_str : String) : List String :=
  ((splitComma tags_str.toList).map String.mk).filter (· ≠ "")

/-- The tag encoding in `memory_save`: `tags.join(",")`. -/
def encodeTags (tags : List String) : String :=
  String.mk (joinComma (tags.map String.toList))

/-- `MemoryDb::memory_save`: insert a row with the comma-joined tags and
return `last_insert_rowid()`. -/
def MemoryDb.memory_save (db : MemoryDb) (content : String) (tags : List String) :
    Nat × MemoryDb :=
  let tags_str := encodeTags tags
  (db.next_id,
   { entries := db.entries ++ [(db.next_id, content, tags_str)],
     next_id := db.next_id + 1 })

/-- `MemoryDb::memory_get`: select the row with the given id and decode the
tags. -/
def MemoryDb.memory_get (db : MemoryDb) (id : Nat) : Option ArchivalMemory :=
  (db.entries.find? fun e => e.1 == id).map fun e =>
    { id := e.1, content := e.2.1, tags := parseTags e.2.2 }

/-- Well-formedness of the modelled store: every existing row id is below the
AUTOINCREMENT counter (true of every reachable state). -/
def MemoryDb.WF (db : MemoryDb) : Prop :=
  ∀ e ∈ db.entries, e.1 < db.next_id

/-! ## Concrete fixtures used by witnesses and counterexamples. -/

/-- A string of 90 words (86 one-letter and 4 two-letter) and 183 characters;
at 90 words the f32 product `90 * 1.3f32` truncates to 116 where exact
arithmetic gives `floor(117) = 117`. -/
def estString90 : String :=
  "a a a a a a a a a a a a a a a a a a a a a a a a a a a a a a a a a a a a " ++
  "a a a a a a a a a a a a a a a a a a a a a a a a a a a a a a a a a a a a " ++
  "a a a a a a a a a a a a a a aa aa aa aa"

/-- Regex oracle that fails to compile every pattern (never consulted by the
scenarios that use it). -/
def regexNone : String → Except String (String → Bool) := fun _ => .error "unused"

/-- Exec oracle under which every command hook fails to spawn. -/
def execFail : Hook → Except HookError (HookOutput × Int) :=
  fun _ => .error (.CommandFailed "unused")

/-- Exec oracle under which every command hook exits with code 2 (block). -/
def execBlock : Hook → Except HookError (HookOutput × Int) := fun _ => .ok ({}, 2)

def userMsg (t : String) : ChatMessage := { role := "user", content := .Text t }

def systemMsg (t : String) : ChatMessage := { role := "system", content := .Text t }

/-- A config whose effective threshold is zero, so any request needs
compaction (`0 * threshold` is exact in f32, so `threshold_tokens = 0` is the
value the source computes for `max_context_tokens = 0`). -/
def cfgZeroA : CompactionConfig :=
  { max_context_tokens := 0, threshold_tokens := 0, preserve_recent := 0,
    preserve_system := false, preserve_tool_calls := false }

/-- Zero-threshold config preserving system messages and the last two. -/
def cfgZeroB : CompactionConfig :=
  { max_context_tokens := 0, threshold_tokens := 0, preserve_recent := 2,
    preserve_system := true, preserve_tool_calls := true }

/-- A single tiny user message: its mechanical synopsis is larger than the
message, so compaction fails to reduce the estimate. -/
def reqTiny : ChatCompletionRequest := { messages := [userMsg "hi"] }

/-- Thirty summarisable user messages followed by a preserved user message
and a preserved system message (the system message comes last, after the
user message, in the original order). -/
def reqOrder : ChatCompletionRequest :=
  { messages := List.replicate 30 (userMsg "x") ++ [userMsg "b", systemMsg "s"] }

/-- An engine whose config has one `pre_compact` entry with no matcher and a
blocking command hook. -/
def engineWithPreCompact : HookEngine :=
  { config := { pre_compact := [{ matcher := none, hooks := [.Command "exit 2" 30] }] } }

/-- A one-server manager with one cached tool, exercising all three error
routes of `McpManager::call_tool`. -/
def mgrAlpha : McpManager :=
  { servers := [("alpha", { name := "alpha", tools := [{ name := "read" }] })] }

/-- Small message list for the categorisation witness: a system prompt, one
summarisable exchange, and two recent messages. -/
def msgsW : List ChatMessage :=
  [systemMsg "sp", userMsg "q1", userMsg "q2", userMsg "q3"]

/-- Request fixture for the injection witness. -/
def reqInj : ChatCompletionRequest :=
  { messages := [systemMsg "You are helpful.", userMsg "Hello!"] }

/-- Hook result fixture carrying two system messages. -/
def hrInj : HookResult :=
  { allowed := true,
    outputs := [{ system_message := some "Remember to be concise." },
                { system_message := some "Use markdown formatting." }],
    errors := [] }

/-- The messages `compact` extracts for summarisation: the summarise indices
resolved against the message list. -/
def summarizedMsgs (config : CompactionConfig) (request : ChatCompletionRequest) :
    List ChatMessage :=
  (analyze config request).messages_to_summarize.filterMap (request.messages.get? ·)

/-- The candidate request `compact` builds before the token re-estimate. -/
def candidateRequest (config : CompactionConfig) (request : ChatCompletionRequest) :
    ChatCompletionRequest :=
  { request with
    messages := compactedMessages (analyze config request) request.messages
      (generate_summary (summarizedMsgs config request)) }

/-- The synopsis `compact` generates for the thirty summarised messages of
`reqOrder`. -/
def summaryW : String :=
  "<context-summary>\nThe following is a summary of the earlier conversation:\n\n" ++
  "**User**: x x x x x x x x x x x x x x x x x x x x x x x x x x x x x x\n" ++
  "</context-summary>"

/-- The post-compaction state of `reqOrder`: preserved system message first,
then the synopsis, then the preserved non-system message. -/
def reqOrderCompacted : ChatCompletionRequest :=
  { messages := [systemMsg "s", summaryMessage summaryW, userMsg "b"] }

/-- Regex oracle for the matcher witness: compiles exactly the pattern
`Write|Edit` to the evident matcher and rejects everything else. -/
def regexW : String → Except String (String → Bool) :=
  fun pattern =>
    if pattern = "Write|Edit" then
      .ok (fun context => context == "Write" || context == "Edit")
    else .error "unsupported pattern"

/-! ## Theorems. -/

/-- With enough fuel, the fuelled logarithm is `Nat.log2`. -/
theorem log2Fuel_eq_log2 (fuel : Nat) : ∀ n, n ≤ fuel → log2Fuel fuel n = Nat.log2 n := by
  induction fuel with
  | zero =>
    intro n hn
    have : n = 0 := Nat.le_zero.mp hn
    subst this
    rw [log2Fuel, Nat.log2]
    simp
  | succ fuel ih =>
    intro n hn
    rw [log2Fuel, Nat.log2]
    by_cases h2 : 2 ≤ n
    · have hdiv : n / 2 ≤ fuel := by
        have : n / 2 < n := Nat.div_lt_self (by omega) (by omega)
        omega
      simp [h2, ih (n / 2) hdiv]
    · simp [h2]

/-- The structurally recursive logarithm agrees with `Nat.log2`. -/
theorem natLog2_eq_log2 (n : Nat) : natLog2 n = Nat.log2 n :=
  log2Fuel_eq_log2 n n (Nat.le_refl n)

set_option maxRecDepth 100000 in
/-- C7, counterexample: on a 90-word, 183-character string the source's f32
word estimate is 116, not `floor(90 * 1.3) = 117`, so `estimate_tokens`
returns 68 where the specification's exact-arithmetic formula gives 69. -/
theorem estimate_tokens_formula_cx :
    estimate_tokens estString90 = 68 ∧ estimate_tokens_spec estString90 = 69 ∧
    charCount estString90 = 183 ∧ wordCount estString90 = 90 := by
  refine ⟨by decide, by decide, by decide, by decide⟩

/-- C7 (amended): `estimate_tokens` is `(2*(char_count/4) + w)/3` where `w`
is the f32-rounded word estimate (`(word_count as f32 * 1.3) as usize`),
rather than the exact `floor(word_count * 1.3)`; and
`estimate_request_tokens` is the sum of per-message estimates plus the
serialised tool-definition estimates plus 100. -/
theorem estimate_tokens_formula (text : String) (request : ChatCompletionRequest) :
    estimate_tokens text =
      (2 * (charCount text / 4) + wordEstimateF32 (wordCount text)) / 3 ∧
    estimate_request_tokens request =
      (request.messages.map estimate_message_tokens).sum +
        ((request.tools.map fun tools => (tools.map estimate_tokens).sum).getD 0) +
        100 := by
  constructor
  · simp [estimate_tokens, Nat.mul_comm]
  · rfl

/-- The first-underscore split finds nothing exactly on underscore-free
strings. -/
theorem splitFirstUnderscore_eq_none {l : List Char} :
    splitFirstUnderscore l = none ↔ '_' ∉ l := by
  induction l with
  | nil => simp [splitFirstUnderscore]
  | cons c rest ih =>
    by_cases hc : c = '_'
    · simp [splitFirstUnderscore, hc]
    · simp [splitFirstUnderscore, hc, Option.map_eq_none', ih]
      exact fun _ e => hc e.symm

/-- The first-underscore split at an explicit first underscore. -/
theorem splitFirstUnderscore_append {a : List Char} (b : List Char) (h : '_' ∉ a) :
    splitFirstUnderscore (a ++ '_' :: b) = some (a, b) := by
  induction a with
  | nil => simp [splitFirstUnderscore]
  | cons c rest ih =>
    have hc : ¬c = '_' := fun e => h (by simp [e])
    have hr : '_' ∉ rest := fun m => h (List.mem_cons_of_mem _ m)
    simp [splitFirstUnderscore, hc, ih hr]

/-- C8: `McpManager::call_tool` splits at the first underscore; a name with
no underscore yields `ToolNotFound`, an unknown server part yields
`NotConnected(server)`, and a connected server whose cached tool list lacks
the tool part yields `ToolNotFound` — in each case no `tools/call` request is
issued (the result is an error, never a dispatched `(server, tool)` pair). -/
theorem mcp_call_tool_routing (manager : McpManager) (full_name : String) :
    ('_' ∉ full_name.toList →
      manager.call_tool full_name =
        .error (.ToolNotFound ("Invalid tool name format: " ++ full_name ++
          ". Expected server_toolname")))
    ∧ (∀ server_chars tool_chars,
        full_name.toList = server_chars ++ '_' :: tool_chars →
        '_' ∉ server_chars →
        (manager.servers.lookup (String.mk server_chars) = none →
          manager.call_tool full_name =
            .error (.NotConnected (String.mk server_chars)))
        ∧ (∀ server, manager.servers.lookup (String.mk server_chars) = some server →
            (server.tools.any fun t => t.name == String.mk tool_chars) = false →
            manager.call_tool full_name =
              .error (.ToolNotFound (String.mk tool_chars)))) := by
  constructor
  · intro h
    unfold McpManager.call_tool
    rw [splitFirstUnderscore_eq_none.mpr h]
  · intro server_chars tool_chars hsplit hserver
    constructor
    · intro hlook
      unfold McpManager.call_tool
      rw [hsplit, splitFirstUnderscore_append _ hserver]
      simp [hlook]
    · intro server hlook hany
      unfold McpManager.call_tool
      rw [hsplit, splitFirstUnderscore_append _ hserver]
      simp [hlook, McpServer.call_tool, hany]

/-- C8, witness: the routing theorem applied to the manager `mgrAlpha` at the
three concrete names `invalidname`, `beta_read` and `alpha_write`. -/
theorem mcp_call_tool_routing_witness :
    mgrAlpha.call_tool "invalidname" =
      .error (.ToolNotFound "Invalid tool name format: invalidname. Expected server_toolname")
    ∧ mgrAlpha.call_tool "beta_read" = .error (.NotConnected "beta")
    ∧ mgrAlpha.call_tool "alpha_write" = .error (.ToolNotFound "write") := by
  refine ⟨(mcp_call_tool_routing mgrAlpha "invalidname").1 (by decide), ?_, ?_⟩
  · exact ((mcp_call_tool_routing mgrAlpha "beta_read").2
      ['b', 'e', 't', 'a'] ['r', 'e', 'a', 'd'] (by decide) (by decide)).1 (by decide)
  · exact (((mcp_call_tool_routing mgrAlpha "alpha_write").2
      ['a', 'l', 'p', 'h', 'a'] ['w', 'r', 'i', 't', 'e'] (by decide) (by decide)).2
      { name := "alpha", tools := [{ name := "read" }] } (by decide) (by decide))

/-- Splitting a comma-free character list yields that list as the single
segment. -/
theorem splitComma_no_comma : ∀ {l : List Char}, ',' ∉ l → splitComma l = [l] := by
  intro l
  induction l with
  | nil => intro _; rfl
  | cons c rest ih =>
    intro h
    have hc : ¬c = ',' := fun e => h (by simp [e])
    have hr : ',' ∉ rest := fun m => h (List.mem_cons_of_mem _ m)
    simp [splitComma, hc, ih hr]

/-- Splitting at an explicit first comma peels off the comma-free head
segment. -/
theorem splitComma_append (a b : List Char) (h : ',' ∉ a) :
    splitComma (a ++ ',' :: b) = a :: splitComma b := by
  induction a with
  | nil => simp [splitComma]
  | cons c rest ih =>
    have hc : ¬c = ',' := fun e => h (by simp [e])
    have hr : ',' ∉ rest := fun m => h (List.mem_cons_of_mem _ m)
    rw [List.cons_append]
    simp only [splitComma, if_neg hc, ih hr]

/-- Every segment produced by the comma split is comma-free. -/
theorem mem_splitComma_no_comma : ∀ {l x : List Char}, x ∈ splitComma l → ',' ∉ x := by
  intro l
  induction l with
  | nil =>
    intro x hx
    simp [splitComma] at hx
    simp [hx]
  | cons c rest ih =>
    intro x hx
    by_cases hc : c = ','
    · simp only [splitComma, if_pos hc] at hx
      rcases List.mem_cons.mp hx with h | h
      · simp [h]
      · exact ih h
    · simp only [splitComma, if_neg hc] at hx
      cases hsp : splitComma rest with
      | nil => simp [hsp] at hx; simp [hx]; exact fun e => hc e.symm
      | cons cur tail =>
        rw [hsp] at hx
        rcases List.mem_cons.mp hx with h | h
        · subst h
          intro hmem
          rcases List.mem_cons.mp hmem with h | h
          · exact hc h.symm
          · exact ih (hsp ▸ List.mem_cons_self cur tail) h
        · exact ih (hsp ▸ List.mem_cons_of_mem cur h)

/-- Join-then-split round trip at the character level, for non-empty
comma-free segments. -/
theorem joinComma_roundtrip : ∀ (tags : List (List Char)),
    (∀ t ∈ tags, t ≠ [] ∧ ',' ∉ t) →
    (splitComma (joinComma tags)).filter (· ≠ []) = tags := by
  intro tags
  induction tags with
  | nil => intro _; simp [joinComma, splitComma]
  | cons t rest ih =>
    intro h
    have ht := h t (List.mem_cons_self t rest)
    cases rest with
    | nil =>
      simp only [joinComma, splitComma_no_comma ht.2]
      simp [ht.1]
    | cons t' rest' =>
      have hrest : ∀ u ∈ t' :: rest', u ≠ [] ∧ ',' ∉ u :=
        fun u hu => h u (List.mem_cons_of_mem _ hu)
      rw [show joinComma (t :: t' :: rest') = t ++ ',' :: joinComma (t' :: rest') from rfl,
        splitComma_append t _ ht.2]
      simp only [List.filter_cons]
      rw [if_pos (by simpa using ht.1), ih hrest]

/-- Rebuilding a string from its character data is the identity. -/
theorem stringMk_data (s : String) : String.mk s.data = s := by
  cases s
  rfl

/-- Filtering out empty strings commutes with rebuilding strings from
character lists. -/
theorem filter_ne_empty_map_mk (l : List (List Char)) :
    (l.map String.mk).filter (· ≠ "") = (l.filter (· ≠ [])).map String.mk := by
  induction l with
  | nil => rfl
  | cons x l ih =>
    have hiff : (String.mk x ≠ "") ↔ (x ≠ []) := by
      constructor
      · intro hne e
        exact hne (by rw [e])
      · intro hne e
        exact hne (by simpa using congrArg String.data e)
    by_cases hx : x = []
    · rw [List.map_cons, List.filter_cons_of_neg (by simp [hiff, hx]),
        List.filter_cons_of_neg (by simp [hx]), ih]
    · rw [List.map_cons, List.filter_cons_of_pos (by simp [hiff, hx]),
        List.filter_cons_of_pos (by simp [hx]), ih, List.map_cons]

/-- The tag decoder inverts the tag encoder on non-empty comma-free tags. -/
theorem parseTags_encodeTags (tags : List String)
    (h : ∀ t ∈ tags, t ≠ "" ∧ ',' ∉ t.data) :
    parseTags (encodeTags tags) = tags := by
  unfold parseTags encodeTags
  have htolist : (String.mk (joinComma (tags.map String.toList))).toList =
      joinComma (tags.map String.toList) := rfl
  have hchars : ∀ u ∈ tags.map String.toList, u ≠ [] ∧ ',' ∉ u := by
    intro u hu
    rcases List.mem_map.mp hu with ⟨t, ht, rfl⟩
    rcases h t ht with ⟨h1, h2⟩
    refine ⟨fun e => h1 ?_, h2⟩
    have : String.mk t.toList = String.mk [] := by rw [e]
    simpa [stringMk_data] using this
  rw [htolist, filter_ne_empty_map_mk, joinComma_roundtrip _ hchars, List.map_map]
  have : (String.mk ∘ String.toList) = id := by
    funext s
    exact stringMk_data s
  rw [this, List.map_id]

/-- `find?` skips a prefix on which the predicate fails. -/
theorem find?_skipAll {α : Type} (p : α → Bool) :
    ∀ (l : List α) (x : α), (∀ e ∈ l, p e = false) →
    List.find? p (l ++ [x]) = List.find? p [x] := by
  intro l
  induction l with
  | nil => intro x _; rfl
  | cons a l ih =>
    intro x h
    rw [List.cons_append, List.find?_cons_of_neg _ (by simp [h a (List.mem_cons_self a l)]),
      ih x (fun e he => h e (List.mem_cons_of_mem _ he))]

/-- C10: saving an entry and reading it back through the comma-joined tag
encoding recovers the content always, and recovers the tag list exactly when
every tag is non-empty and comma-free; a tag list containing an empty tag or
a comma-bearing tag is never recovered verbatim. -/
theorem memory_save_get_roundtrip (db : MemoryDb) (content : String)
    (tags : List String) (hwf : db.WF) :
    ((∀ t ∈ tags, t ≠ "" ∧ ',' ∉ t.data) →
      (db.memory_save content tags).2.memory_get (db.memory_save content tags).1 =
        some { id := db.next_id, content := content, tags := tags })
    ∧ ((∃ t ∈ tags, t = "" ∨ ',' ∈ t.data) →
      ((db.memory_save content tags).2.memory_get
          (db.memory_save content tags).1).map (fun m => m.tags) ≠ some tags) := by
  have hget : (db.memory_save content tags).2.memory_get
      (db.memory_save content tags).1 =
      some { id := db.next_id, content := content,
             tags := parseTags (encodeTags tags) } := by
    unfold MemoryDb.memory_save MemoryDb.memory_get
    simp only
    rw [find?_skipAll _ db.entries (db.next_id, content, encodeTags tags)
      (fun e he => by
        have := hwf e he
        simp [Nat.ne_of_lt this])]
    simp [List.find?]
  constructor
  · intro h
    rw [hget, parseTags_encodeTags tags h]
  · rintro ⟨t, ht, hbad⟩ heq
    rw [hget] at heq
    simp only [Option.map_some', Option.some.injEq] at heq
    have hmem : t ∈ parseTags (encodeTags tags) := by rw [heq]; exact ht
    rcases hbad with hempty | hcomma
    · subst hempty
      simp [parseTags, List.mem_filter] at hmem
    · simp only [parseTags, List.mem_filter, List.mem_map] at hmem
      rcases hmem with ⟨⟨x, hx, rfl⟩, _⟩
      exact mem_splitComma_no_comma hx hcomma

/-- C10, witness: round-tripping one entry with tag list `["arch"]` on the
empty store recovers content and tags at id 1. -/
theorem memory_save_get_roundtrip_witness :
    (MemoryDb.memory_save {} "The project uses cooperative async tasks"
        ["arch"]).2.memory_get
      (MemoryDb.memory_save {} "The project uses cooperative async tasks"
        ["arch"]).1 =
      some { id := 1, content := "The project uses cooperative async tasks",
             tags := ["arch"] } := by
  exact (memory_save_get_roundtrip {} "The project uses cooperative async tasks"
    ["arch"] (by intro e he; cases he)).1 (by decide)

/-- C5: `categorize_messages` returns two index lists that partition
`{0..n-1}` disjointly; an index is preserved exactly when the configured
predicate holds of its message (system role, recency window with saturating
subtraction, or tool involvement), and both lists are strictly increasing. -/
theorem categorize_messages_spec (config : CompactionConfig)
    (messages : List ChatMessage) :
    (∀ i msg, messages.get? i = some msg →
      (i ∈ (categorize_messages config messages).1 ↔
        ((config.preserve_system = true ∧ msg.role = "system") ∨
         messages.length - config.preserve_recent ≤ i ∨
         (config.preserve_tool_calls = true ∧
           (msg.role = "tool" ∨ msg.tool_calls.isSome = true ∨
            msg.tool_call_id.isSome = true)))))
    ∧ (∀ i ∈ (categorize_messages config messages).1, i < messages.length)
    ∧ (∀ i ∈ (categorize_messages config messages).2, i < messages.length)
    ∧ (∀ i, i < messages.length →
        (i ∈ (categorize_messages config messages).1 ↔
         i ∉ (categorize_messages config messages).2))
    ∧ (categorize_messages config messages).1.Pairwise (· < ·)
    ∧ (categorize_messages config messages).2.Pairwise (· < ·) := by
  refine ⟨?_, ?_, ?_, ?_, ?_, ?_⟩
  · intro i msg hmsg
    have hlt : i < messages.length := by
      by_contra hge
      rw [List.get?_eq_none.mpr (Nat.le_of_not_lt hge)] at hmsg
      simp at hmsg
    simp only [categorize_messages, List.mem_filter, List.mem_range, hmsg]
    simp [shouldPreserve, hlt, Bool.or_eq_true, Bool.and_eq_true,
      decide_eq_true_eq, and_comm]
    tauto
  · intro i hi
    simp only [categorize_messages, List.mem_filter, List.mem_range] at hi
    exact hi.1
  · intro i hi
    simp only [categorize_messages, List.mem_filter, List.mem_range] at hi
    exact hi.1
  · intro i hlt
    simp only [categorize_messages, List.mem_filter, List.mem_range]
    simp [hlt]
  · exact List.Pairwise.sublist (List.filter_sublist _) (List.pairwise_lt_range _)
  · exact List.Pairwise.sublist (List.filter_sublist _) (List.pairwise_lt_range _)

/-- C5, witness: with `preserve_recent = 2` and `preserve_system = true`, the
categorisation of `msgsW` preserves index 0 (system) and puts index 1 in the
summarise list. -/
theorem categorize_messages_spec_witness :
    0 ∈ (categorize_messages cfgZeroB msgsW).1 ∧
    1 ∈ (categorize_messages cfgZeroB msgsW).2 := by
  constructor
  · exact ((categorize_messages_spec cfgZeroB msgsW).1 0 (systemMsg "sp")
      (by decide)).mpr (Or.inl ⟨rfl, rfl⟩)
  · have h := ((categorize_messages_spec cfgZeroB msgsW).2.2.2.1 1 (by decide))
    by_cases hmem : 1 ∈ (categorize_messages cfgZeroB msgsW).2
    · exact hmem
    · exact absurd (((categorize_messages_spec cfgZeroB msgsW).1 1 (userMsg "q1")
        (by decide)).mp (h.mpr hmem)) (by decide)

/-- Point update preserves length. -/
theorem modifyNthL_length {α : Type} (f : α → α) :
    ∀ (l : List α) (i : Nat), (modifyNthL l i f).length = l.length := by
  intro l
  induction l with
  | nil => intro i; rfl
  | cons a l ih =>
    intro i
    cases i with
    | zero => rfl
    | succ i => simp [modifyNthL, ih i]

/-- Point update leaves every other index unchanged. -/
theorem modifyNthL_get_ne {α : Type} (f : α → α) :
    ∀ (l : List α) (i j : Nat), j ≠ i → (modifyNthL l i f).get? j = l.get? j := by
  intro l
  induction l with
  | nil => intro i j _; rfl
  | cons a l ih =>
    intro i j hne
    cases i with
    | zero =>
      cases j with
      | zero => exact absurd rfl hne
      | succ j => rfl
    | succ i =>
      cases j with
      | zero => rfl
      | succ j => exact ih i j (fun e => hne (by rw [e]))

/-- Point update applies the function exactly at the given index. -/
theorem modifyNthL_get_same {α : Type} (f : α → α) :
    ∀ (l : List α) (i : Nat), (modifyNthL l i f).get? i = (l.get? i).map f := by
  intro l
  induction l with
  | nil => intro i; rfl
  | cons a l ih =>
    intro i
    cases i with
    | zero => rfl
    | succ i => exact ih i

/-- `rposition` finds nothing exactly when no element satisfies the
predicate. -/
theorem rposition_eq_none {α : Type} (p : α → Bool) :
    ∀ (l : List α), rposition p l = none ↔ ∀ a ∈ l, p a = false := by
  intro l
  induction l with
  | nil => simp [rposition]
  | cons a l ih =>
    cases hr : rposition p l with
    | some j =>
      simp only [rposition, hr]
      constructor
      · intro h; cases h
      · intro hall
        have : rposition p l = none :=
          (ih).mpr fun x hx => hall x (List.mem_cons_of_mem _ hx)
        rw [hr] at this
        cases this
    | none =>
      simp only [rposition, hr]
      by_cases hpa : p a = true
      · simp only [if_pos hpa]
        constructor
        · intro h; cases h
        · intro hall
          rw [hall a (List.mem_cons_self a l)] at hpa
          cases hpa
      · have hpa' : p a = false := Bool.eq_false_iff.mpr hpa
        simp only [if_neg hpa]
        constructor
        · intro _ x hx
          rcases List.mem_cons.mp hx with h | h
          · rw [h]; exact hpa'
          · exact ih.mp hr x h
        · intro _; trivial

/-- `rposition` returns the index of the last element satisfying the
predicate: the element there satisfies it and everything after fails it. -/
theorem rposition_spec {α : Type} (p : α → Bool) :
    ∀ (l : List α) (i : Nat), rposition p l = some i →
      ∃ a, l.get? i = some a ∧ p a = true ∧
        ∀ j b, i < j → l.get? j = some b → p b = false := by
  intro l
  induction l with
  | nil => intro i h; cases h
  | cons a l ih =>
    intro i h
    cases hr : rposition p l with
    | some j =>
      rw [rposition, hr] at h
      have hi : i = j + 1 := by
        have := Option.some.inj h
        omega
      subst hi
      rcases ih j hr with ⟨b, hget, hpb, hafter⟩
      refine ⟨b, by simpa using hget, hpb, ?_⟩
      intro k c hk hget'
      cases k with
      | zero => omega
      | succ k => exact hafter k c (by omega) (by simpa using hget')
    | none =>
      rw [rposition, hr] at h
      by_cases hpa : p a = true
      · rw [if_pos hpa] at h
        have hi : i = 0 := (Option.some.inj h).symm
        subst hi
        refine ⟨a, rfl, hpa, ?_⟩
        intro k c hk hget'
        cases k with
        | zero => omega
        | succ k =>
          have : c ∈ l := List.get?_mem (by simpa using hget')
          exact (rposition_eq_none p l).mp hr c this
      · rw [if_neg hpa] at h
        cases h

/-- C9: `ContextInjector::inject` preserves pre-existing message order and
alters at most one message: with no hook `systemMessage` the request is
unchanged; otherwise the wrapped concatenation is appended to the last
user-role message when one exists (the index `rposition` returns is the last
user index), and a single system message is appended at the end when none
exists; point updates preserve length and every other index. -/
theorem inject_spec (request : ChatCompletionRequest) (hook_result : HookResult) :
    (hook_result.system_messages = [] → inject request hook_result = request)
    ∧ (∀ i, hook_result.system_messages ≠ [] →
        rposition (fun m => m.role == "user") request.messages = some i →
        (inject request hook_result).messages =
          modifyNthL request.messages i
            (append_to_message ·
              (wrap_system_reminder
                (String.intercalate "\n\n" hook_result.system_messages))))
    ∧ (hook_result.system_messages ≠ [] →
        rposition (fun m => m.role == "user") request.messages = none →
        (inject request hook_result).messages =
          request.messages ++
            [{ role := "system",
               content := .Text (wrap_system_reminder
                 (String.intercalate "\n\n" hook_result.system_messages)) }])
    ∧ (∀ i, rposition (fun m => m.role == "user") request.messages = some i →
        ∃ m, request.messages.get? i = some m ∧ m.role = "user" ∧
          ∀ j m', i < j → request.messages.get? j = some m' → m'.role ≠ "user")
    ∧ (rposition (fun m => m.role == "user") request.messages = none →
        ∀ m ∈ request.messages, m.role ≠ "user")
    ∧ (∀ (l : List ChatMessage) (i : Nat) (f : ChatMessage → ChatMessage),
        (modifyNthL l i f).length = l.length
        ∧ (modifyNthL l i f).get? i = (l.get? i).map f
        ∧ ∀ j, j ≠ i → (modifyNthL l i f).get? j = l.get? j) := by
  refine ⟨?_, ?_, ?_, ?_, ?_, ?_⟩
  · intro h
    simp [inject, h]
  · intro i hne hpos
    rw [inject]
    rw [if_neg (by simpa using hne)]
    rw [hpos]
  · intro hne hpos
    rw [inject]
    rw [if_neg (by simpa using hne)]
    rw [hpos]
  · intro i hpos
    rcases rposition_spec _ request.messages i hpos with ⟨m, hget, hpm, hafter⟩
    refine ⟨m, hget, by simpa using hpm, ?_⟩
    intro j m' hij hget' e
    have := hafter j m' hij hget'
    rw [e] at this
    simp at this
  · intro hnone m hm e
    have := (rposition_eq_none _ request.messages).mp hnone m hm
    rw [e] at this
    simp at this
  · intro l i f
    exact ⟨modifyNthL_length f l i, modifyNthL_get_same f l i,
      fun j hj => modifyNthL_get_ne f l i j hj⟩

/-- One merge step rewritten componentwise. -/
theorem mergeStep_eq (acc : HookResult) (r : Except HookError (HookOutput × Int)) :
    mergeStep acc r =
      ⟨acc.allowed && !isBlockingRes r,
       acc.outputs ++ (okPart r).toList,
       acc.errors ++ (errPart r).toList⟩ := by
  cases r with
  | error e => simp [mergeStep, isBlockingRes, okPart, errPart]
  | ok pr =>
    obtain ⟨output, exit_code⟩ := pr
    by_cases h2 : exit_code = 2
    · cases hd : output.decision with
      | none => simp [mergeStep, isBlockingRes, okPart, errPart, h2, hd]
      | some d =>
        by_cases hb : d = "deny" ∨ d = "block"
        · simp [mergeStep, isBlockingRes, okPart, errPart, h2, hd, hb]
        · simp [mergeStep, isBlockingRes, okPart, errPart, h2, hd, hb]
    · cases hd : output.decision with
      | none => simp [mergeStep, isBlockingRes, okPart, errPart, h2, hd]
      | some d =>
        by_cases hb : d = "deny" ∨ d = "block"
        · rcases hb with hb | hb <;>
            simp [mergeStep, isBlockingRes, okPart, errPart, h2, hd, hb]
        · have hd1 : ¬d = "deny" := fun e => hb (Or.inl e)
          have hd2 : ¬d = "block" := fun e => hb (Or.inr e)
          simp [mergeStep, isBlockingRes, okPart, errPart, h2, hd, hd1, hd2]

/-- The merge fold, characterised componentwise from any accumulator. -/
theorem foldl_mergeStep (results : List (Except HookError (HookOutput × Int))) :
    ∀ acc : HookResult,
      results.foldl mergeStep acc =
        ⟨acc.allowed && !(results.any isBlockingRes),
         acc.outputs ++ results.filterMap okPart,
         acc.errors ++ results.filterMap errPart⟩ := by
  induction results with
  | nil => intro acc; simp
  | cons r rest ih =>
    intro acc
    rw [List.foldl_cons, mergeStep_eq, ih]
    cases hok : okPart r <;> cases herr : errPart r <;>
      simp [List.any_cons, List.filterMap_cons, hok, herr, Bool.not_or,
        Bool.and_assoc, List.append_assoc]

/-- The merged result of a full run: blocked exactly when some result blocks;
outputs and errors are the collected parts in order. -/
theorem mergeResults_spec (results : List (Except HookError (HookOutput × Int))) :
    mergeResults results =
      ⟨!(results.any isBlockingRes),
       results.filterMap okPart,
       results.filterMap errPart⟩ := by
  rw [mergeResults, foldl_mergeStep]
  rfl

/-- `HookEngine::run` merges exactly the results of the hooks selected by
`hooks_to_run`. -/
theorem run_eq_mergeResults (regex : String → Except String (String → Bool))
    (exec : Hook → Except HookError (HookOutput × Int))
    (engine : HookEngine) (event : HookEvent) (input : HookInput) :
    engine.run regex exec event input =
      mergeResults ((HookEngine.hooks_to_run regex engine event input).map
        (HookEngine.run_hook exec)) := by
  rw [HookEngine.run, HookEngine.hooks_to_run]
  by_cases h1 : (engine.get_entries_for_event event).isEmpty
  · simp [h1, mergeResults]
  · simp only [h1, if_false, Bool.false_eq_true]
    by_cases h2 : ((engine.get_entries_for_event event).filter
        (fun e => HookEngine.matches_entry regex e
          (HookEngine.get_matcher_context input))).isEmpty
    · rw [if_pos h2]
      rw [List.isEmpty_iff] at h2
      simp [h2, mergeResults]
    · rw [if_neg h2]

/-- C4: `HookEngine::run` never fails on an individual hook failure: it
returns `allowed = false` exactly when some successfully completed hook among
those run has exit code 2 or decision `deny`/`block`; every successful hook's
output is appended to `outputs` and every hook failure to `errors`, in
submission order, without affecting the `allowed` flag. -/
theorem hook_run_merge_spec (regex : String → Except String (String → Bool))
    (exec : Hook → Except HookError (HookOutput × Int))
    (engine : HookEngine) (event : HookEvent) (input : HookInput) :
    ((engine.run regex exec event input).allowed = false ↔
      ∃ h ∈ HookEngine.hooks_to_run regex engine event input,
        isBlockingRes (HookEngine.run_hook exec h) = true)
    ∧ (engine.run regex exec event input).outputs =
        (HookEngine.hooks_to_run regex engine event input).filterMap
          (fun h => okPart (HookEngine.run_hook exec h))
    ∧ (engine.run regex exec event input).errors =
        (HookEngine.hooks_to_run regex engine event input).filterMap
          (fun h => errPart (HookEngine.run_hook exec h)) := by
  rw [run_eq_mergeResults, mergeResults_spec]
  refine ⟨?_, ?_, ?_⟩
  · simp [List.any_map, List.any_eq_true, Function.comp]
  · dsimp only
    rw [List.filterMap_map]
    rfl
  · dsimp only
    rw [List.filterMap_map]
    rfl

/-- C6: the matcher context is the tool name if present, else the prompt if
present, else the event's canonical key; an entry with no matcher always
fires; an entry with an empty or uncompilable matcher is skipped (it
contributes no hooks to the run, so it cannot clear `allowed`); and an
entry with a valid matcher fires exactly when the compiled regex matches the
context. Every hook that runs comes from an entry that matched. -/
theorem matcher_context_spec (regex : String → Except String (String → Bool)) :
    (∀ (input : HookInput) (t : String), input.tool_name = some t →
      HookEngine.get_matcher_context input = t)
    ∧ (∀ (input : HookInput) (p : String), input.tool_name = none →
        input.prompt = some p → HookEngine.get_matcher_context input = p)
    ∧ (∀ input : HookInput, input.tool_name = none → input.prompt = none →
        HookEngine.get_matcher_context input = input.event.config_key)
    ∧ (∀ hooks context,
        HookEngine.matches_entry regex { matcher := none, hooks := hooks } context = true)
    ∧ (∀ hooks context,
        HookEngine.matches_entry regex { matcher := some "", hooks := hooks } context = false)
    ∧ (∀ pattern hooks context e, pattern ≠ "" → regex pattern = .error e →
        HookEngine.matches_entry regex { matcher := some pattern, hooks := hooks } context
          = false)
    ∧ (∀ pattern hooks context f, pattern ≠ "" → regex pattern = .ok f →
        HookEngine.matches_entry regex { matcher := some pattern, hooks := hooks } context
          = f context)
    ∧ (∀ (engine : HookEngine) (event : HookEvent) (input : HookInput) (h : Hook),
        h ∈ HookEngine.hooks_to_run regex engine event input →
        ∃ entry ∈ engine.get_entries_for_event event,
          HookEngine.matches_entry regex entry (HookEngine.get_matcher_context input)
              = true
            ∧ h ∈ entry.hooks) := by
  refine ⟨?_, ?_, ?_, ?_, ?_, ?_, ?_, ?_⟩
  · intro input t ht
    simp [HookEngine.get_matcher_context, ht]
  · intro input p ht hp
    simp [HookEngine.get_matcher_context, ht, hp]
  · intro input ht hp
    simp [HookEngine.get_matcher_context, ht, hp]
  · intro hooks context
    simp [HookEngine.matches_entry]
  · intro hooks context
    simp [HookEngine.matches_entry, HookEngine.validate_and_match]
  · intro pattern hooks context e hne herr
    simp [HookEngine.matches_entry, HookEngine.validate_and_match, hne, herr]
  · intro pattern hooks context f hne hok
    simp [HookEngine.matches_entry, HookEngine.validate_and_match, hne, hok]
  · intro engine event input h hmem
    rw [HookEngine.hooks_to_run] at hmem
    by_cases h1 : (engine.get_entries_for_event event).isEmpty
    · simp [h1] at hmem
    · simp only [h1, if_false, Bool.false_eq_true] at hmem
      rcases List.mem_flatten.mp hmem with ⟨l, hl, hhl⟩
      rcases List.mem_map.mp hl with ⟨entry, hentry, rfl⟩
      rcases List.mem_filter.mp hentry with ⟨hentry', hmatch⟩
      exact ⟨entry, hentry', hmatch, hhl⟩

/-- C6, witness: the matcher-semantics theorem applied at concrete inputs —
tool name wins as context; a valid matcher fires on `Write`; an invalid and
an empty matcher are skipped; a missing matcher always fires. -/
theorem matcher_context_spec_witness :
    HookEngine.get_matcher_context { event := .PreToolUse, tool_name := some "Write" }
        = "Write"
    ∧ HookEngine.matches_entry regexW { matcher := some "Write|Edit" } "Write" = true
    ∧ HookEngine.matches_entry regexW { matcher := some "[" } "Write" = false
    ∧ HookEngine.matches_entry regexW { matcher := some "" } "Write" = false
    ∧ HookEngine.matches_entry regexW { matcher := none } "Write" = true := by
  refine ⟨?_, ?_, ?_, ?_, ?_⟩
  · exact (matcher_context_spec regexW).1 _ "Write" rfl
  · exact ((matcher_context_spec regexW).2.2.2.2.2.2.1 "Write|Edit" [] "Write"
      (fun context => context == "Write" || context == "Edit")
      (by decide) rfl).trans (by decide)
  · exact (matcher_context_spec regexW).2.2.2.2.2.1 "[" [] "Write"
      "unsupported pattern" (by decide) rfl
  · exact (matcher_context_spec regexW).2.2.2.2.1 [] "Write"
  · exact (matcher_context_spec regexW).2.2.2.1 [] "Write"

/-- C9, witness: injecting two hook system messages into a request whose last
user message is at index 1 appends the wrapped reminder to that message and
leaves the system message at index 0 untouched. -/
theorem inject_spec_witness :
    (inject reqInj hrInj).messages =
      [systemMsg "You are helpful.",
       userMsg ("Hello!" ++ "\n\n" ++
         "<system-reminder>\nRemember to be concise.\n\nUse markdown formatting.\n</system-reminder>")] := by
  have h := (inject_spec reqInj hrInj).2.1 1 (by decide) (by decide)
  rw [h]
  decide

/-- Exhaustive case analysis of `compact`: no compaction needed or nothing to
summarise (unchanged request), hook-blocked (unchanged request), failed
re-estimate (candidate request already committed), or successful compaction
(candidate request committed, strictly fewer tokens). -/
theorem compact_cases (regex : String → Except String (String → Bool))
    (exec : Hook → Except HookError (HookOutput × Int))
    (config : CompactionConfig) (request : ChatCompletionRequest)
    (hook_engine : Option HookEngine) (session_id : Option String) :
    compact regex exec config request hook_engine session_id =
        (.ok ⟨false, (analyze config request).current_tokens,
              (analyze config request).current_tokens, 0, none⟩, request)
    ∨ (∃ reason,
        compactBlocked regex exec hook_engine session_id
            (analyze config request).current_tokens (analyze config request).max_tokens
          = some reason
        ∧ compact regex exec config request hook_engine session_id =
            (.error (.HookBlocked reason), request))
    ∨ ((analyze config request).current_tokens ≤
          estimate_request_tokens (candidateRequest config request)
        ∧ compact regex exec config request hook_engine session_id =
            (.error (.Failed "Compaction did not reduce token count"),
             candidateRequest config request))
    ∨ (estimate_request_tokens (candidateRequest config request) <
          (analyze config request).current_tokens
        ∧ compact regex exec config request hook_engine session_id =
            (.ok ⟨true, (analyze config request).current_tokens,
                  estimate_request_tokens (candidateRequest config request),
                  (summarizedMsgs config request).length,
                  some (generate_summary (summarizedMsgs config request))⟩,
             candidateRequest config request)) := by
  by_cases hneeds : (analyze config request).needs_compaction = true
  · cases hb : compactBlocked regex exec hook_engine session_id
        (analyze config request).current_tokens (analyze config request).max_tokens with
    | some reason =>
      right; left
      exact ⟨reason, rfl, by simp [compact, hneeds, hb]⟩
    | none =>
      by_cases hempty : ((analyze config request).messages_to_summarize.filterMap
          (request.messages.get? ·)).isEmpty = true
      · left
        simp only [List.get?_eq_getElem?] at hempty
        simp [compact, hneeds, hb, hempty]
      · have hempty' : ((analyze config request).messages_to_summarize.filterMap
            (request.messages.get? ·)).isEmpty = false := by
          simpa using hempty
        simp only [List.get?_eq_getElem?] at hempty'
        by_cases htok : (analyze config request).current_tokens ≤
            estimate_request_tokens (candidateRequest config request)
        · right; right; left
          refine ⟨htok, ?_⟩
          simp only [candidateRequest, summarizedMsgs, List.get?_eq_getElem?] at htok
          simp [compact, hneeds, hb, hempty', htok, candidateRequest, summarizedMsgs]
        · right; right; right
          refine ⟨Nat.not_le.mp htok, ?_⟩
          simp only [candidateRequest, summarizedMsgs, List.get?_eq_getElem?] at htok
          simp [compact, hneeds, hb, hempty', htok, candidateRequest, summarizedMsgs]
  · have h0 : (analyze config request).needs_compaction = false := by
      revert hneeds
      cases (analyze config request).needs_compaction <;> simp
    left
    simp [compact, h0]

set_option maxRecDepth 1000000 in
/-- C1, counterexample: on a one-message request under a zero-threshold
config, `compact` returns `Failed("Compaction did not reduce token count")`
but the caller's message list has already been replaced by the candidate
(the synopsis message), so the request is not left unchanged. -/
theorem compact_failed_leaves_mutation_cx :
    (compact regexNone execFail cfgZeroA reqTiny none none).1 =
      .error (.Failed "Compaction did not reduce token count")
    ∧ (compact regexNone execFail cfgZeroA reqTiny none none).2.messages ≠
        reqTiny.messages
    ∧ (compact regexNone execFail cfgZeroA reqTiny none none).2.messages =
        [summaryMessage
          ("<context-summary>\nThe following is a summary of the earlier conversation:\n\n**User**: hi\n</context-summary>")] := by
  refine ⟨by decide, by decide, by decide⟩

/-- C1 (amended): when `compact` fails with `Failed`, the caller's request
has already been mutated: it equals the candidate request (preserved system
messages, then the synopsis, then preserved non-system messages), because the
source commits `request.messages = new_messages` before re-estimating. -/
theorem compact_failed_request_mutated (regex : String → Except String (String → Bool))
    (exec : Hook → Except HookError (HookOutput × Int))
    (config : CompactionConfig) (request : ChatCompletionRequest)
    (hook_engine : Option HookEngine) (session_id : Option String) (msg : String)
    (h : (compact regex exec config request hook_engine session_id).1 =
      .error (.Failed msg)) :
    (compact regex exec config request hook_engine session_id).2 =
      candidateRequest config request := by
  rcases compact_cases regex exec config request hook_engine session_id with
    h1 | ⟨reason, _, h2⟩ | ⟨_, h3⟩ | ⟨_, h4⟩
  · rw [h1] at h
    simp at h
  · rw [h2] at h
    simp at h
  · rw [h3]
  · rw [h4] at h
    simp at h

set_option maxRecDepth 1000000 in
/-- C1, witness: the mutation theorem applied to the concrete failing
scenario of the counterexample. -/
theorem compact_failed_request_mutated_witness :
    (compact regexNone execFail cfgZeroA reqTiny none none).2 =
      candidateRequest cfgZeroA reqTiny :=
  compact_failed_request_mutated regexNone execFail cfgZeroA reqTiny none none
    "Compaction did not reduce token count" (by decide)

set_option maxRecDepth 1000000 in
/-- C2, counterexample: with a configuration whose `pre_compact` list holds a
blocking entry (no matcher, `exit 2` command hook) and an exec oracle making
every command hook exit 2, `compact` on a request that needs compaction does
not fail with `HookBlocked`; it reaches the summarisation stage (here failing
with `Failed`), because `get_entries_for_event` never consults the
`pre_compact` entries. -/
theorem precompact_hook_cannot_block_cx :
    (compact regexNone execBlock cfgZeroA reqTiny (some engineWithPreCompact) none).1 =
      .error (.Failed "Compaction did not reduce token count")
    ∧ ∀ reason,
        (compact regexNone execBlock cfgZeroA reqTiny
            (some engineWithPreCompact) none).1 ≠
          .error (.HookBlocked reason) := by
  have h0 : (compact regexNone execBlock cfgZeroA reqTiny
      (some engineWithPreCompact) none).1 =
      .error (.Failed "Compaction did not reduce token count") := by decide
  refine ⟨h0, ?_⟩
  intro reason hcontra
  rw [h0] at hcontra
  exact CompactionError.noConfusion (Except.error.inj hcontra)

/-- C2 (amended): the engine consults config entries for six of the twelve
event kinds (`session_start`, `session_end`, `pre_tool_use`, `post_tool_use`,
`user_prompt_submit`, `stop`); for the other six — `pre_compact` included —
`get_entries_for_event` returns the empty list, so `run` returns the
all-clear result for `PreCompact` under every configuration and oracle, and
`compact` can never fail with `HookBlocked`. -/
theorem precompact_entries_never_consulted
    (regex : String → Except String (String → Bool))
    (exec : Hook → Except HookError (HookOutput × Int)) (engine : HookEngine)
    (input : HookInput) (config : CompactionConfig)
    (request : ChatCompletionRequest) (session_id : Option String) :
    engine.get_entries_for_event .PreCompact = []
    ∧ engine.run regex exec .PreCompact input = HookResult.allowedDefault
    ∧ (∀ reason, (compact regex exec config request (some engine) session_id).1 ≠
        .error (.HookBlocked reason))
    ∧ engine.get_entries_for_event .SessionStart = engine.config.session_start
    ∧ engine.get_entries_for_event .SessionEnd = engine.config.session_end
    ∧ engine.get_entries_for_event .PreToolUse = engine.config.pre_tool_use
    ∧ engine.get_entries_for_event .PostToolUse = engine.config.post_tool_use
    ∧ engine.get_entries_for_event .UserPromptSubmit = engine.config.user_prompt_submit
    ∧ engine.get_entries_for_event .Stop = engine.config.stop
    ∧ engine.get_entries_for_event .PostToolUseFailure = []
    ∧ engine.get_entries_for_event .SubagentStart = []
    ∧ engine.get_entries_for_event .SubagentStop = []
    ∧ engine.get_entries_for_event .PermissionRequest = []
    ∧ engine.get_entries_for_event .Notification = [] := by
  have hrun : ∀ inp : HookInput,
      engine.run regex exec .PreCompact inp = HookResult.allowedDefault := by
    intro inp
    rw [HookEngine.run]
    simp [HookEngine.get_entries_for_event]
  have hblock : ∀ (sid : Option String) (cur mx : Nat),
      precompactBlockReason regex exec engine sid cur mx = none := by
    intro sid cur mx
    rw [precompactBlockReason.eq_def]
    simp [hrun, HookResult.allowedDefault]
  refine ⟨rfl, hrun input, ?_, rfl, rfl, rfl, rfl, rfl, rfl, rfl, rfl, rfl, rfl, rfl⟩
  intro reason hcontra
  rcases compact_cases regex exec config request (some engine) session_id with
    h1 | ⟨r2, hb, h2⟩ | ⟨_, h3⟩ | ⟨_, h4⟩
  · rw [h1] at hcontra
    simp at hcontra
  · simp only [compactBlocked, hblock] at hb
    simp at hb
  · rw [h3] at hcontra
    simp at hcontra
  · rw [h4] at hcontra
    simp at hcontra

/-- C2, witness: the theorem applied at the concrete engine whose
`pre_compact` list holds a blocking entry. -/
theorem precompact_entries_never_consulted_witness :
    (compact regexNone execFail cfgZeroA reqTiny (some engineWithPreCompact) none).1 ≠
      .error (.HookBlocked "blocked") :=
  (precompact_entries_never_consulted regexNone execFail engineWithPreCompact
    (HookInput.new .PreCompact) cfgZeroA reqTiny none).2.2.1 "blocked"

set_option maxRecDepth 1000000 in
/-- C3, counterexample: a successful compaction whose output message list is
not the preserved messages in their original relative order with one message
inserted: the preserved messages are `[user b, system s]` (in original
order), but the output is `[system s, synopsis, user b]` — removing any
single element never yields the preserved list in original order. -/
theorem compact_order_cx :
    (match (compact regexNone execFail cfgZeroB reqOrder none none).1 with
      | .ok r => r.compacted
      | .error _ => false) = true
    ∧ (analyze cfgZeroB reqOrder).messages_to_preserve.filterMap
        (reqOrder.messages.get? ·) = [userMsg "b", systemMsg "s"]
    ∧ (compact regexNone execFail cfgZeroB reqOrder none none).2.messages.length = 3
    ∧ (∀ k, k < 4 →
        (compact regexNone execFail cfgZeroB reqOrder none none).2.messages.eraseIdx k ≠
          (analyze cfgZeroB reqOrder).messages_to_preserve.filterMap
            (reqOrder.messages.get? ·)) := by
  refine ⟨by decide, by decide, by decide, by decide⟩

/-- C3 (amended): whenever `compact` returns `Ok`, either `compacted = false`
with the request unchanged and no token change, or `compacted = true` with
`new_tokens < original_tokens` and the new message list equal to the
preserved system messages in original order, then exactly one injected system
message carrying the synopsis, then the preserved non-system messages in
original order (`compactedMessages`). -/
theorem compact_ok_dichotomy (regex : String → Except String (String → Bool))
    (exec : Hook → Except HookError (HookOutput × Int))
    (config : CompactionConfig) (request : ChatCompletionRequest)
    (hook_engine : Option HookEngine) (session_id : Option String)
    (r : CompactionResult) (req' : ChatCompletionRequest)
    (h : compact regex exec config request hook_engine session_id = (.ok r, req')) :
    (r.compacted = false ∧ req' = request ∧ r.new_tokens = r.original_tokens
      ∧ r.original_tokens = estimate_request_tokens request)
    ∨ (r.compacted = true ∧ r.new_tokens < r.original_tokens
      ∧ r.original_tokens = estimate_request_tokens request
      ∧ r.new_tokens = estimate_request_tokens req'
      ∧ req'.messages =
          compactedMessages (analyze config request) request.messages
            (generate_summary (summarizedMsgs config request))
      ∧ r.summary = some (generate_summary (summarizedMsgs config request))
      ∧ r.messages_summarized = (summarizedMsgs config request).length) := by
  rcases compact_cases regex exec config request hook_engine session_id with
    h1 | ⟨reason, _, h2⟩ | ⟨_, h3⟩ | ⟨hlt, h4⟩
  · rw [h] at h1
    have hr : r = ⟨false, (analyze config request).current_tokens,
        (analyze config request).current_tokens, 0, none⟩ :=
      Except.ok.inj (congrArg Prod.fst h1)
    have hreq : req' = request := congrArg Prod.snd h1
    left
    rw [hr, hreq]
    exact ⟨rfl, rfl, rfl, rfl⟩
  · rw [h] at h2
    have := congrArg Prod.fst h2
    simp at this
  · rw [h] at h3
    have := congrArg Prod.fst h3
    simp at this
  · rw [h] at h4
    have hr : r = ⟨true, (analyze config request).current_tokens,
        estimate_request_tokens (candidateRequest config request),
        (summarizedMsgs config request).length,
        some (generate_summary (summarizedMsgs config request))⟩ :=
      Except.ok.inj (congrArg Prod.fst h4)
    have hreq : req' = candidateRequest config request := congrArg Prod.snd h4
    right
    rw [hr, hreq]
    exact ⟨rfl, hlt, rfl, rfl, rfl, rfl, rfl⟩

set_option maxRecDepth 1000000 in
/-- C3, witness: the dichotomy theorem applied to the concrete successful
compaction of `reqOrder` (228 tokens down to 156, 30 messages summarised). -/
theorem compact_ok_dichotomy_witness :
    (⟨true, 228, 156, 30, some summaryW⟩ : CompactionResult).compacted = true ∧
    (156 : Nat) < 228 := by
  rcases compact_ok_dichotomy regexNone execFail cfgZeroB reqOrder none none
      ⟨true, 228, 156, 30, some summaryW⟩ reqOrderCompacted (by decide) with
    ⟨hfalse, _⟩ | ⟨htrue, hlt, _⟩
  · exact absurd hfalse (by decide)
  · exact ⟨htrue, hlt⟩

end OpenClaudia
